import Mathlib

/-!
# Verification of the trending-repository aggregation and reconciliation pipeline

Shallow embedding of the pipeline scripts:
`scripts/fetch_trending.py` (Search Client and Aggregator),
`scripts/generate_site.py` (Categorizer) and
`scripts/sync_to_feishu.py` (Tabular Sync reconciliation).

Python dictionaries produced by `normalize_repo` are embedded as the `Repo`
structure; fields whose value may be `None` in Python become `Option`-typed
fields. Machine-level concerns (JSON parsing, HTTP transport) are out of the
embedded core; network call outcomes are modelled explicitly as data.
-/

/-- A normalized repository record as produced by `normalize_repo` in
`fetch_trending.py`. Fields that `.get` may return `None` for are `Option`s;
counters default to 0 in the source, so they are plain `Nat`s here. Only the
fields read by the embedded operations are carried. -/
structure Repo where
  full_name : Option String
  name : String
  description : Option String
  language : Option String
  stargazers_count : Nat
  forks_count : Nat
  topics : List String
  html_url : String
deriving DecidableEq

/-- Loop of `deduplicate_repos`: walk the list keeping a `seen` set of
`full_name`s; a record is kept iff its `full_name` is truthy (present and
non-empty) and not seen before. -/
def dedupGo : List String → List Repo → List Repo
  | _, [] => []
  | seen, r :: rs =>
    match r.full_name with
    | none => dedupGo seen rs
    | some fn =>
      if fn ≠ "" ∧ fn ∉ seen then r :: dedupGo (fn :: seen) rs
      else dedupGo seen rs

/-- Embedding of `deduplicate_repos` from `fetch_trending.py`. -/
def deduplicate_repos (repos : List Repo) : List Repo :=
  dedupGo [] repos

/-- Insert a record into a descending-by-stars list, before the first element
whose star count does not exceed it; this is the insertion step of a stable
descending sort, matching Python `list.sort(key=stars, reverse=True)`
(Python sorts are guaranteed stable). -/
def insertDesc (x : Repo) : List Repo → List Repo
  | [] => [x]
  | y :: ys =>
    if y.stargazers_count ≤ x.stargazers_count then x :: y :: ys
    else y :: insertDesc x ys

/-- Stable descending sort by `stargazers_count`, embedding
`unique.sort(key=lambda x: x.get("stargazers_count", 0), reverse=True)`. -/
def sortByStars : List Repo → List Repo
  | [] => []
  | x :: xs => insertDesc x (sortByStars xs)

/-- The result envelope built by `fetch_all_trending`. -/
structure Envelope where
  fetched_at : String
  total_count : Nat
  repositories : List Repo
deriving DecidableEq

/-- Pure core of `fetch_all_trending`: the concatenated stream of normalized
records is deduplicated and then stably sorted by stars descending. The
network fetching that produces `all_repos` is outside the embedded core; the
timestamp is passed in. -/
def fetch_all_trending (now : String) (all_repos : List Repo) : Envelope :=
  let unique := deduplicate_repos all_repos
  let ranked := sortByStars unique
  { fetched_at := now, total_count := ranked.length, repositories := ranked }

/-- Pure core of `main` in `fetch_trending.py`: truncate the ranked list to
the caller-supplied limit (default 100) and refresh `total_count`. -/
def main_fetch (now : String) (limit : Nat) (all_repos : List Repo) : Envelope :=
  let data := fetch_all_trending now all_repos
  let repos := data.repositories.take limit
  { fetched_at := data.fetched_at, total_count := repos.length, repositories := repos }

/-- A record with only the fields relevant to deduplication and ranking set;
used for concrete test inputs. -/
def mkRepo (fn : Option String) (stars : Nat) : Repo :=
  { full_name := fn, name := "", description := none, language := none,
    stargazers_count := stars, forks_count := 0, topics := [], html_url := "" }

theorem dedupGo_filter (fn : String) (hfn : fn ≠ "") (l : List Repo) :
    ∀ seen : List String,
      (dedupGo seen l).filter (fun r => r.full_name == some fn) =
        if fn ∈ seen then [] else (l.filter (fun r => r.full_name == some fn)).take 1 := by
  induction l with
  | nil => intro seen; simp [dedupGo]
  | cons r rs ih =>
    intro seen
    cases hfull : r.full_name with
    | none =>
      simp only [dedupGo, hfull]
      rw [List.filter_cons_of_neg (by simp [hfull])]
      exact ih seen
    | some g =>
      simp only [dedupGo, hfull]
      by_cases hkeep : g ≠ "" ∧ g ∉ seen
      · rw [if_pos hkeep]
        by_cases hg : g = fn
        · subst hg
          rw [List.filter_cons_of_pos (by simp [hfull]),
            List.filter_cons_of_pos (by simp [hfull]), ih (g :: seen)]
          rw [if_pos (List.mem_cons_self g seen), if_neg hkeep.2]
          simp
        · rw [List.filter_cons_of_neg (by simp [hfull, hg]),
            List.filter_cons_of_neg (by simp [hfull, hg]), ih (g :: seen)]
          simp [Ne.symm hg]
      · rw [if_neg hkeep, ih seen]
        push_neg at hkeep
        by_cases hg : g = fn
        · subst hg
          have hseen : g ∈ seen := hkeep (by simpa using hfn)
          rw [if_pos hseen, if_pos hseen]
        · rw [List.filter_cons_of_neg (by simp [hfull, hg])]

/-- Claim C1: deduplication keeps exactly one record per distinct `full_name`,
the first-encountered one in concatenated input order; later duplicates are
discarded even when they carry different star counts. Stated as: for every
non-empty name, the records surviving deduplication with that `full_name` are
exactly the first-encountered such record of the input (and nothing when the
name never occurs). -/
theorem claim1_dedup_keeps_first (l : List Repo) (fn : String) (hfn : fn ≠ "") :
    (deduplicate_repos l).filter (fun r => r.full_name == some fn) =
      (l.filter (fun r => r.full_name == some fn)).take 1 := by
  rw [deduplicate_repos, dedupGo_filter fn hfn l [], if_neg (List.not_mem_nil fn)]

/-- Witness for C1 at the spec scenario: input a/x with 50 stars, a/x with 90
stars, b/y with 70 stars; the surviving a/x is the stars-50 record. -/
theorem claim1_dedup_keeps_first_witness :
    (deduplicate_repos
        [mkRepo (some "a/x") 50, mkRepo (some "a/x") 90, mkRepo (some "b/y") 70]).filter
        (fun r => r.full_name == some "a/x") =
      ([mkRepo (some "a/x") 50, mkRepo (some "a/x") 90, mkRepo (some "b/y") 70].filter
        (fun r => r.full_name == some "a/x")).take 1 ∧
    ([mkRepo (some "a/x") 50, mkRepo (some "a/x") 90, mkRepo (some "b/y") 70].filter
        (fun r => r.full_name == some "a/x")).take 1 = [mkRepo (some "a/x") 50] :=
  ⟨claim1_dedup_keeps_first _ "a/x" (by decide), by decide⟩

theorem mem_insertDesc {x z : Repo} {l : List Repo} :
    z ∈ insertDesc x l ↔ z = x ∨ z ∈ l := by
  induction l with
  | nil => simp [insertDesc]
  | cons y ys ih =>
    rw [insertDesc]
    split
    · simp [List.mem_cons]
    · simp [List.mem_cons, ih]; tauto

theorem pairwise_insertDesc {x : Repo} {l : List Repo}
    (h : l.Pairwise fun a b => b.stargazers_count ≤ a.stargazers_count) :
    (insertDesc x l).Pairwise fun a b => b.stargazers_count ≤ a.stargazers_count := by
  induction l with
  | nil => simp [insertDesc]
  | cons y ys ih =>
    rw [List.pairwise_cons] at h
    rw [insertDesc]
    split
    · rename_i hle
      rw [List.pairwise_cons]
      refine ⟨?_, List.pairwise_cons.mpr h⟩
      intro z hz
      rcases List.mem_cons.mp hz with rfl | hz
      · exact hle
      · exact le_trans (h.1 z hz) hle
    · rename_i hgt
      push_neg at hgt
      rw [List.pairwise_cons]
      refine ⟨?_, ih h.2⟩
      intro z hz
      rcases mem_insertDesc.mp hz with rfl | hz
      · exact le_of_lt hgt
      · exact h.1 z hz

theorem sorted_sortByStars (l : List Repo) :
    (sortByStars l).Pairwise fun a b => b.stargazers_count ≤ a.stargazers_count := by
  induction l with
  | nil => simp [sortByStars]
  | cons x xs ih => exact pairwise_insertDesc ih

theorem filter_insertDesc (s : Nat) (x : Repo) (l : List Repo) :
    (insertDesc x l).filter (fun r => r.stargazers_count == s) =
      if x.stargazers_count = s
      then x :: l.filter (fun r => r.stargazers_count == s)
      else l.filter (fun r => r.stargazers_count == s) := by
  induction l with
  | nil =>
    by_cases hx : x.stargazers_count = s
    · rw [insertDesc, List.filter_cons_of_pos (by simp [hx]), if_pos hx]
    · rw [insertDesc, List.filter_cons_of_neg (by simp [hx]), if_neg hx]
  | cons y ys ih =>
    rw [insertDesc]
    split
    · rename_i hle
      by_cases hx : x.stargazers_count = s
      · rw [if_pos hx, List.filter_cons_of_pos (by simp [hx])]
      · rw [if_neg hx, List.filter_cons_of_neg (by simp [hx])]
    · rename_i hgt
      push_neg at hgt
      by_cases hx : x.stargazers_count = s
      · have hy : ¬ y.stargazers_count = s := by omega
        rw [if_pos hx, List.filter_cons_of_neg (by simp [hy]),
          List.filter_cons_of_neg (by simp [hy]), ih, if_pos hx]
      · rw [if_neg hx]
        by_cases hy : y.stargazers_count = s
        · rw [List.filter_cons_of_pos (by simp [hy]),
            List.filter_cons_of_pos (by simp [hy]), ih, if_neg hx]
        · rw [List.filter_cons_of_neg (by simp [hy]),
            List.filter_cons_of_neg (by simp [hy]), ih, if_neg hx]

theorem filter_sortByStars (s : Nat) (l : List Repo) :
    (sortByStars l).filter (fun r => r.stargazers_count == s) =
      l.filter (fun r => r.stargazers_count == s) := by
  induction l with
  | nil => rfl
  | cons x xs ih =>
    rw [sortByStars, filter_insertDesc]
    by_cases hx : x.stargazers_count = s
    · rw [if_pos hx, ih, List.filter_cons_of_pos (by simp [hx])]
    · rw [if_neg hx, ih, List.filter_cons_of_neg (by simp [hx])]

/-- Claim C2: the ranked output of the Aggregator is ordered by
`stargazers_count` non-increasing, and records with any given star count keep
the relative order they had in the deduplicated (pre-sort) stream — the sort
is a stable descending sort. -/
theorem claim2_stable_ranking (now : String) (all_repos : List Repo) :
    ((fetch_all_trending now all_repos).repositories.Pairwise
      fun a b => b.stargazers_count ≤ a.stargazers_count) ∧
    ∀ s : Nat,
      (fetch_all_trending now all_repos).repositories.filter
          (fun r => r.stargazers_count == s) =
        (deduplicate_repos all_repos).filter (fun r => r.stargazers_count == s) := by
  refine ⟨sorted_sortByStars _, fun s => filter_sortByStars s _⟩

theorem length_insertDesc (x : Repo) (l : List Repo) :
    (insertDesc x l).length = l.length + 1 := by
  induction l with
  | nil => rfl
  | cons y ys ih =>
    rw [insertDesc]
    split
    · rfl
    · simp [ih]

theorem length_sortByStars (l : List Repo) : (sortByStars l).length = l.length := by
  induction l with
  | nil => rfl
  | cons x xs ih => rw [sortByStars, length_insertDesc, ih, List.length_cons]

/-- Claim C8: the emitted envelope holds exactly
`min limit (number of deduplicated records)` repositories — the caller limit
is applied by truncation after ranking. -/
theorem claim8_truncation_bound (now : String) (limit : Nat) (all_repos : List Repo) :
    (main_fetch now limit all_repos).repositories.length =
      min limit (deduplicate_repos all_repos).length := by
  simp [main_fetch, fetch_all_trending, List.length_take, length_sortByStars]

theorem mem_dedupGo {r : Repo} :
    ∀ (seen : List String) (l : List Repo), r ∈ dedupGo seen l →
      ∃ fn, r.full_name = some fn ∧ fn ≠ "" := by
  intro seen l
  induction l generalizing seen with
  | nil => intro h; exact absurd h (List.not_mem_nil r)
  | cons x xs ih =>
    intro h
    cases hfull : x.full_name with
    | none =>
      simp only [dedupGo, hfull] at h
      exact ih seen h
    | some g =>
      simp only [dedupGo, hfull] at h
      by_cases hkeep : g ≠ "" ∧ g ∉ seen
      · rw [if_pos hkeep] at h
        rcases List.mem_cons.mp h with rfl | h
        · exact ⟨g, hfull, hkeep.1⟩
        · exact ih (g :: seen) h
      · rw [if_neg hkeep] at h
        exact ih seen h

theorem mem_sortByStars {r : Repo} {l : List Repo} :
    r ∈ sortByStars l ↔ r ∈ l := by
  induction l with
  | nil => simp [sortByStars]
  | cons x xs ih =>
    rw [sortByStars, mem_insertDesc, ih, List.mem_cons]

/-- Claim C10: deduplication silently drops every record whose `full_name` is
missing or empty, so every record surviving deduplication — and hence every
repository in the envelope emitted by the fetch entry point — carries a
non-empty `full_name`. -/
theorem claim10_dedup_drops_falsy_names :
    (∀ (l : List Repo) (r : Repo), r ∈ deduplicate_repos l →
      ∃ fn, r.full_name = some fn ∧ fn ≠ "") ∧
    (∀ (now : String) (limit : Nat) (l : List Repo) (r : Repo),
      r ∈ (main_fetch now limit l).repositories →
      ∃ fn, r.full_name = some fn ∧ fn ≠ "") := by
  constructor
  · intro l r h
    exact mem_dedupGo [] l h
  · intro now limit l r h
    have h1 : r ∈ (fetch_all_trending now l).repositories :=
      List.mem_of_mem_take h
    have h2 : r ∈ deduplicate_repos l := by
      have := h1
      rw [fetch_all_trending] at this
      exact mem_sortByStars.mp this
    exact mem_dedupGo [] l h2

/-- Witness for C10: from an input holding a record with no `full_name`, one
with an empty `full_name` and one named b/y, the surviving b/y record is shown
by the theorem to carry a non-empty name; the falsy records are dropped. -/
theorem claim10_dedup_drops_falsy_names_witness :
    (∃ fn, (mkRepo (some "b/y") 70).full_name = some fn ∧ fn ≠ "") ∧
    deduplicate_repos [mkRepo none 1, mkRepo (some "") 2, mkRepo (some "b/y") 70] =
      [mkRepo (some "b/y") 70] :=
  ⟨claim10_dedup_drops_falsy_names.1
      [mkRepo none 1, mkRepo (some "") 2, mkRepo (some "b/y") 70]
      (mkRepo (some "b/y") 70) (by decide),
    by decide⟩

/-- Outcome of the single outbound HTTP attempt issued by `make_request` in
`fetch_trending.py`: a parsed body, an `HTTPError` carrying its status code,
or a `URLError` (timeout, DNS failure, connection refused). -/
inductive HttpOutcome (α : Type) where
  | success (body : α)
  | httpError (code : Nat)
  | urlError
deriving DecidableEq

/-- The exception propagated out of `make_request`: the re-raised `HTTPError`
(with its status code) or the re-raised `URLError`. -/
inductive RequestError where
  | httpError (code : Nat)
  | urlError
deriving DecidableEq

/-- Embedding of `make_request` from `fetch_trending.py`. The function performs exactly one
attempt — modelled by taking a single outcome — and re-raises every failure to
the caller (a 403 additionally prints a rate-limit notice before the raise;
printing is outside the embedding). No failure is retried or swallowed. -/
def make_request {α : Type} : HttpOutcome α → Except RequestError α
  | .success body => .ok body
  | .httpError code => .error (.httpError code)
  | .urlError => .error .urlError

/-- Spec taxonomy: the `RateLimited` failure is the HTTP 403 response. -/
def isRateLimited (e : RequestError) : Prop := e = .httpError 403

/-- Spec taxonomy: a `ServerError` is a 5xx HTTP response. -/
def isServerError (e : RequestError) : Prop :=
  ∃ c, e = .httpError c ∧ 500 ≤ c ∧ c < 600

/-- Spec taxonomy: a `NetworkError` is a transport-level `URLError`
(timeout, DNS failure, connection refused). -/
def isNetworkError (e : RequestError) : Prop := e = .urlError

/-- Claim C9: `make_request` signals an HTTP 403 as the `RateLimited` failure,
distinct from `NetworkError` (transport failures) and from `ServerError`
(5xx responses); every such failure is propagated to the caller from the
single attempt — none is retried into a success. -/
theorem claim9_error_taxonomy (α : Type) :
    (make_request (α := α) (.httpError 403) = .error (.httpError 403) ∧
      isRateLimited (.httpError 403) ∧ ¬ isServerError (.httpError 403) ∧
      ¬ isNetworkError (.httpError 403)) ∧
    (∀ c, 500 ≤ c → c < 600 →
      make_request (α := α) (.httpError c) = .error (.httpError c) ∧
      isServerError (.httpError c) ∧ ¬ isRateLimited (.httpError c) ∧
      ¬ isNetworkError (.httpError c)) ∧
    (make_request (α := α) .urlError = .error .urlError ∧
      isNetworkError .urlError ∧ ¬ isRateLimited .urlError ∧
      ¬ isServerError .urlError) ∧
    (∀ c, ¬ ∃ a : α, make_request (.httpError c) = .ok a) ∧
    (¬ ∃ a : α, make_request (α := α) .urlError = .ok a) := by
  refine ⟨⟨rfl, rfl, ?_, ?_⟩, ?_, ⟨rfl, rfl, ?_, ?_⟩, ?_, ?_⟩
  · rintro ⟨c, hc, h5, _⟩
    cases hc
    omega
  · intro h
    exact RequestError.noConfusion h
  · intro c h5 h6
    refine ⟨rfl, ⟨c, rfl, h5, h6⟩, ?_, ?_⟩
    · intro h
      rw [isRateLimited] at h
      have : c = 403 := by injection h
      omega
    · intro h
      exact RequestError.noConfusion h
  · intro h
    exact RequestError.noConfusion h
  · rintro ⟨c, hc, _, _⟩
    exact RequestError.noConfusion hc
  · rintro c ⟨a, ha⟩
    exact Except.noConfusion ha
  · rintro ⟨a, ha⟩
    exact Except.noConfusion ha

/-- Witness for C9 at status code 503: a concrete 5xx response is signalled as
a `ServerError`, distinct from `RateLimited` and `NetworkError`. -/
theorem claim9_error_taxonomy_witness :
    make_request (α := Unit) (.httpError 503) = .error (.httpError 503) ∧
    isServerError (.httpError 503) ∧ ¬ isRateLimited (.httpError 503) ∧
    ¬ isNetworkError (.httpError 503) :=
  (claim9_error_taxonomy Unit).2.1 503 (by decide) (by decide)

/-- The fixed ordered rule table `CATEGORY_RULES` of `generate_site.py`
(Python dicts preserve insertion order): pairs of category label and keyword
list, with the terminal fallback rule carrying an empty keyword list. -/
def CATEGORY_RULES : List (String × List String) :=
  [("智能体框架", ["agent-framework", "langchain", "crewai", "autogen", "llamaindex",
      "semantic-kernel", "agents", "multi-agent"]),
   ("自主智能体", ["autogpt", "auto-gpt", "autonomous", "gpt-engineer", "devin",
      "openinterpreter", "open-interpreter"]),
   ("代码助手", ["copilot", "code-assistant", "code-generation", "cursor", "cline",
      "aider", "continue", "code-completion", "ide"]),
   ("对话系统", ["chatbot", "chat", "nextchat", "chatgpt", "openwebui", "lobe-chat",
      "conversation"]),
   ("RAG/知识库", ["rag", "knowledge-base", "vector", "embedding", "ragflow",
      "anything-llm", "dify", "fastgpt"]),
   ("开发工具", ["sdk", "api", "tool", "cli", "library", "boilerplate", "template"]),
   ("数据分析", ["data", "analytics", "visualization", "dashboard", "pandas", "chart"]),
   ("其他", [])]

/-- Character-list prefix test: does the first list start the second? -/
def charsPrefixOf : List Char → List Char → Bool
  | [], _ => true
  | _ :: _, [] => false
  | c :: cs, d :: ds => c == d && charsPrefixOf cs ds

/-- Character-list containment: does the first list occur contiguously inside
the second? The empty list occurs in every list, as in Python. -/
def charsContains (needle : List Char) : List Char → Bool
  | [] => charsPrefixOf needle []
  | d :: ds => charsPrefixOf needle (d :: ds) || charsContains needle ds

/-- Substring containment, embedding the Python `keyword in all_text` test. -/
def strContains (hay needle : String) : Bool :=
  charsContains needle.data hay.data

/-- Lowercasing as Python `str.lower()` on the pipeline's ASCII keyword data:
every character is lowercased. Equal to `String.toLower`, stated over the
character list so that concrete instances reduce. -/
def strLower (s : String) : String :=
  ⟨s.data.map Char.toLower⟩

/-- The lowercased search text of `categorize_repo`: the space-join of the
lowercased topics, the lowercased description (`None` treated as the empty
string) and the lowercased name. -/
def allTextOf (repo : Repo) : String :=
  let topics := repo.topics.map strLower
  let desc := strLower (repo.description.getD "")
  let name := strLower repo.name
  String.intercalate " " (topics ++ [desc, name])

/-- Rule-scan loop of `categorize_repo`: rules are tried in declared order,
the rule named 其他 is skipped, the first rule one of whose keywords occurs in
the text wins, and 其他 is returned when no rule matched. -/
def categorizeGo (text : String) : List (String × List String) → String
  | [] => "其他"
  | (category, keywords) :: rest =>
    if category = "其他" then categorizeGo text rest
    else if keywords.any (fun k => strContains text k) then category
    else categorizeGo text rest

/-- Embedding of `categorize_repo` from `generate_site.py`. -/
def categorize_repo (repo : Repo) : String :=
  categorizeGo (allTextOf repo) CATEGORY_RULES

theorem categorizeGo_mem (text : String) :
    ∀ rules : List (String × List String),
      categorizeGo text rules = "其他" ∨ categorizeGo text rules ∈ rules.map Prod.fst := by
  intro rules
  induction rules with
  | nil => left; rfl
  | cons p rest ih =>
    obtain ⟨c, ks⟩ := p
    by_cases hc : c = "其他"
    · rcases ih with h | h
      · left; rw [categorizeGo, if_pos hc, h]
      · right; rw [categorizeGo, if_pos hc]
        exact List.mem_cons_of_mem _ h
    · by_cases hk : ks.any (fun k => strContains text k) = true
      · right
        rw [categorizeGo, if_neg hc, if_pos hk]
        exact List.mem_cons_self _ _
      · rcases ih with h | h
        · left; rw [categorizeGo, if_neg hc, if_neg hk, h]
        · right; rw [categorizeGo, if_neg hc, if_neg hk]
          exact List.mem_cons_of_mem _ h

theorem categorizeGo_no_match (text : String) :
    ∀ rules : List (String × List String),
      (∀ p ∈ rules, ∀ k ∈ p.2, strContains text k = false) →
      categorizeGo text rules = "其他" := by
  intro rules
  induction rules with
  | nil => intro _; rfl
  | cons p rest ih =>
    intro h
    obtain ⟨c, ks⟩ := p
    by_cases hc : c = "其他"
    · rw [categorizeGo, if_pos hc]
      exact ih fun q hq => h q (List.mem_cons_of_mem _ hq)
    · have hk : ks.any (fun k => strContains text k) = false :=
        List.any_eq_false.mpr fun k hk => by
          simpa using h (c, ks) (List.mem_cons_self _ _) k hk
      rw [categorizeGo, if_neg hc, if_neg (by simp [hk])]
      exact ih fun q hq => h q (List.mem_cons_of_mem _ hq)

/-- Claim C6: the Categorizer is total — every record receives exactly one
label, drawn from the fixed rule table; the fallback rule 其他 carries an
empty keyword list (so it can never be matched by keyword); and a record
matching no keyword of any rule receives the fallback label. -/
theorem claim6_categorizer_total (r : Repo) :
    categorize_repo r ∈ CATEGORY_RULES.map Prod.fst ∧
    ("其他", ([] : List String)) ∈ CATEGORY_RULES ∧
    ((∀ p ∈ CATEGORY_RULES, ∀ k ∈ p.2, strContains (allTextOf r) k = false) →
      categorize_repo r = "其他") := by
  refine ⟨?_, by decide, fun h => categorizeGo_no_match _ _ h⟩
  rcases categorizeGo_mem (allTextOf r) CATEGORY_RULES with h | h
  · rw [categorize_repo, h]; decide
  · exact h

/-- Witness for C6: a record whose text (a single space) matches no keyword of
any rule receives the fallback label 其他. -/
theorem claim6_categorizer_total_witness :
    categorize_repo (mkRepo (some "z/z") 0) = "其他" :=
  (claim6_categorizer_total (mkRepo (some "z/z") 0)).2.2 (by decide)

theorem categorizeGo_first_match (text : String) :
    ∀ (pre post : List (String × List String)) (cat : String) (kws : List String),
      cat ≠ "其他" →
      kws.any (fun k => strContains text k) = true →
      (∀ p ∈ pre, p.2.any (fun k => strContains text k) = false) →
      categorizeGo text (pre ++ (cat, kws) :: post) = cat := by
  intro pre
  induction pre with
  | nil =>
    intro post cat kws hcat hm _
    rw [List.nil_append, categorizeGo, if_neg hcat, if_pos hm]
  | cons p pre ih =>
    intro post cat kws hcat hm hp
    obtain ⟨c, ks⟩ := p
    by_cases hc : c = "其他"
    · rw [List.cons_append, categorizeGo, if_pos hc]
      exact ih post cat kws hcat hm fun q hq => hp q (List.mem_cons_of_mem _ hq)
    · have hks : ks.any (fun k => strContains text k) = false :=
        hp (c, ks) (List.mem_cons_self _ _)
      rw [List.cons_append, categorizeGo, if_neg hc, if_neg (by simp [hks])]
      exact ih post cat kws hcat hm fun q hq => hp q (List.mem_cons_of_mem _ hq)

/-- Claim C7: when a record matches keywords of several rules, the rule
declared first in the table wins — if the table splits as
`pre ++ (cat, kws) :: post`, no keyword of any rule in `pre` occurs in the
record text, and some keyword of `kws` does, then the record is categorized as
`cat`, whatever the rules in `post` would match. Matching is substring
containment on the lowercased topics-description-name concatenation. -/
theorem claim7_categorizer_precedence (r : Repo)
    (pre post : List (String × List String)) (cat : String) (kws : List String)
    (hsplit : CATEGORY_RULES = pre ++ (cat, kws) :: post)
    (hcat : cat ≠ "其他")
    (hm : kws.any (fun k => strContains (allTextOf r) k) = true)
    (hpre : ∀ p ∈ pre, p.2.any (fun k => strContains (allTextOf r) k) = false) :
    categorize_repo r = cat := by
  rw [categorize_repo, hsplit]
  exact categorizeGo_first_match (allTextOf r) pre post cat kws hcat hm hpre

/-- The spec scenario record for the Categorizer: topics
`["langchain-agent"]`, empty description, name `"foo"`. -/
def langchainAgentRepo : Repo :=
  { full_name := some "o/foo", name := "foo", description := some "",
    language := none, stargazers_count := 0, forks_count := 0,
    topics := ["langchain-agent"], html_url := "" }

/-- Witness for C7 at the spec scenario: the record with topic
langchain-agent is categorized under the first rule, whose keyword set
contains langchain, by substring match. -/
theorem claim7_categorizer_precedence_witness :
    categorize_repo langchainAgentRepo = "智能体框架" :=
  claim7_categorizer_precedence langchainAgentRepo []
    [("自主智能体", ["autogpt", "auto-gpt", "autonomous", "gpt-engineer", "devin",
        "openinterpreter", "open-interpreter"]),
     ("代码助手", ["copilot", "code-assistant", "code-generation", "cursor", "cline",
        "aider", "continue", "code-completion", "ide"]),
     ("对话系统", ["chatbot", "chat", "nextchat", "chatgpt", "openwebui", "lobe-chat",
        "conversation"]),
     ("RAG/知识库", ["rag", "knowledge-base", "vector", "embedding", "ragflow",
        "anything-llm", "dify", "fastgpt"]),
     ("开发工具", ["sdk", "api", "tool", "cli", "library", "boilerplate", "template"]),
     ("数据分析", ["data", "analytics", "visualization", "dashboard", "pandas", "chart"]),
     ("其他", [])]
    "智能体框架"
    ["agent-framework", "langchain", "crewai", "autogen", "llamaindex",
      "semantic-kernel", "agents", "multi-agent"]
    rfl (by decide) (by decide) (by simp)

/-- A repository record as consumed by `sync_to_feishu.py` from the envelope
file. Every normalized record carries the `full_name` key with a string value
(the envelope is post-deduplication), so `full_name` is a plain `String`;
`description`, `language` and the owner login may be JSON null and are
`Option`s. -/
structure SRepo where
  full_name : String
  name : String
  html_url : String
  description : Option String
  language : Option String
  owner_login : Option String
  stargazers_count : Nat
  forks_count : Nat
  topics : List String
deriving DecidableEq

/-- Embedding of `FIELD_DEFINITIONS` from `sync_to_feishu.py`: the required column names
with their Feishu value-type codes. -/
def FIELD_DEFINITIONS : List (String × Nat) :=
  [("项目名称", 1), ("描述", 3), ("Stars", 2), ("Forks", 2), ("语言", 3),
   ("链接", 15), ("作者", 1), ("标签", 1), ("更新时间", 5), ("是否已读", 7),
   ("是否关注", 7), ("备注", 3)]

/-- The names of the required columns, in declaration order. -/
def allFieldNames : List String :=
  FIELD_DEFINITIONS.map Prod.fst

/-- A cell value sent to the tabular store. `nullv` is the JSON null that
Python `None` serializes to; `linkv` is the url-plus-label pair; `ts` is a
millisecond timestamp. -/
inductive FieldValue where
  | text (s : String)
  | nullv
  | num (n : Nat)
  | linkv (url label : String)
  | ts (t : Nat)
deriving DecidableEq

/-- Python slicing `s[:n]` by code points. -/
def pyStrTake (s : String) (n : Nat) : String :=
  ⟨s.data.take n⟩

/-- The 描述 value of `create_record`:
`repo.get("description", "")[:2000] if repo.get("description") else ""` —
a missing or empty description yields the empty string, otherwise the first
2000 characters. -/
def descValue (r : SRepo) : String :=
  match r.description with
  | some d => if d = "" then "" else pyStrTake d 2000
  | none => ""

/-- The 语言 value of `create_record`: `repo.get("language", "Unknown")`.
Normalized records always carry the `language` key (possibly null), and
`.get` only falls back to the default for a missing key, so a null language
is written as null — the Unknown placeholder is never reached on
envelope-shaped input. -/
def langValue (r : SRepo) : FieldValue :=
  match r.language with
  | some l => FieldValue.text l
  | none => FieldValue.nullv

/-- The 作者 value of `create_record`:
`repo.get("owner", {}).get("login", "")`; the normalized owner object always
carries the `login` key (possibly null), so a null login is written as
null. -/
def authorValue (r : SRepo) : FieldValue :=
  match r.owner_login with
  | some l => FieldValue.text l
  | none => FieldValue.nullv

/-- The fields dictionary built by `create_record` in `sync_to_feishu.py`,
in insertion order: each of the nine handled columns is added only when
present in `existing_fields`; the 标签 entry additionally requires a
non-empty topic list (`repo.get("topics")` truthiness); `now` is the
millisecond clock read for 更新时间. The flag columns 是否已读 / 是否关注 and
the 备注 column are never added. -/
def createFields (r : SRepo) (ef : List String) (now : Nat) :
    List (String × FieldValue) :=
  (if "项目名称" ∈ ef then [("项目名称", FieldValue.text r.full_name)] else []) ++
  (if "描述" ∈ ef then [("描述", FieldValue.text (descValue r))] else []) ++
  (if "Stars" ∈ ef then [("Stars", FieldValue.num r.stargazers_count)] else []) ++
  (if "Forks" ∈ ef then [("Forks", FieldValue.num r.forks_count)] else []) ++
  (if "语言" ∈ ef then [("语言", langValue r)] else []) ++
  (if "链接" ∈ ef then [("链接", FieldValue.linkv r.html_url r.name)] else []) ++
  (if "作者" ∈ ef then [("作者", authorValue r)] else []) ++
  (if "标签" ∈ ef ∧ r.topics ≠ [] then
      [("标签", FieldValue.text (String.intercalate ", " (r.topics.take 10)))]
    else []) ++
  (if "更新时间" ∈ ef then [("更新时间", FieldValue.ts now)] else [])

/-- The fields dictionary built by `update_record` in `sync_to_feishu.py`:
only Stars, Forks and 更新时间, each only when present in
`existing_fields`. -/
def updateFields (r : SRepo) (ef : List String) (now : Nat) :
    List (String × FieldValue) :=
  (if "Stars" ∈ ef then [("Stars", FieldValue.num r.stargazers_count)] else []) ++
  (if "Forks" ∈ ef then [("Forks", FieldValue.num r.forks_count)] else []) ++
  (if "更新时间" ∈ ef then [("更新时间", FieldValue.ts now)] else [])

/-- A row of the external tabular store: its record id and its cells. -/
structure StoreRow where
  record_id : Nat
  fields : List (String × FieldValue)
deriving DecidableEq

/-- The external tabular store: rows in creation order plus the next record
id. The store itself lives in the Feishu service; this is the standard model
of its documented record API (search by exact cell value, append on create,
merge provided cells on update). -/
structure Store where
  rows : List StoreRow
  next_id : Nat
deriving DecidableEq

/-- Embedding of `search_existing_record`: search the table for a row whose 项目名称 cell
is exactly the record's `full_name`; the record id of the first hit is
returned, or none. -/
def search_existing_record (st : Store) (repo_full_name : String) : Option Nat :=
  (st.rows.find? fun row =>
      row.fields.lookup "项目名称" == some (FieldValue.text repo_full_name)).map
    StoreRow.record_id

/-- Set one cell of a row's field list, replacing an existing entry for the
key or appending a fresh one. -/
def setField : List (String × FieldValue) → String → FieldValue →
    List (String × FieldValue)
  | [], k, v => [(k, v)]
  | (k', v') :: rest, k, v =>
    if k' = k then (k, v) :: rest else (k', v') :: setField rest k v

/-- Merge an update payload into a row's cells: cells named in the payload
are overwritten, all other cells are untouched (the Feishu record-update API
only modifies the fields provided in the request body). -/
def updateMerge (fields : List (String × FieldValue))
    (fs : List (String × FieldValue)) : List (String × FieldValue) :=
  fs.foldl (fun acc kv => setField acc kv.1 kv.2) fields

/-- Apply an update payload to one row. -/
def applyUpdate (row : StoreRow) (fs : List (String × FieldValue)) : StoreRow :=
  { row with fields := updateMerge row.fields fs }

/-- Apply an update payload to the row with the given record id. -/
def applyUpdateById (st : Store) (rid : Nat) (fs : List (String × FieldValue)) :
    Store :=
  { st with rows := st.rows.map fun row =>
      if row.record_id = rid then applyUpdate row fs else row }

/-- Append a freshly created row holding the given cells. -/
def appendRow (st : Store) (fs : List (String × FieldValue)) : Store :=
  { rows := st.rows ++ [{ record_id := st.next_id, fields := fs }],
    next_id := st.next_id + 1 }

/-- The running state of the `sync_to_feishu` reconciliation loop: the store
plus the created / updated / failed counters. -/
structure SyncState where
  store : Store
  created : Nat
  updated : Nat
  failed : Nat
deriving DecidableEq

/-- One iteration of the reconciliation loop of `sync_to_feishu`: search for
the record's `full_name`; on a hit update the row (counting `updated`),
otherwise create a full row (counting `created`). The store model has no
failing sub-calls, so the failed counter never moves; the pacing sleep has no
observable effect. -/
def syncStep (ef : List String) (now : Nat) (s : SyncState) (r : SRepo) :
    SyncState :=
  match search_existing_record s.store r.full_name with
  | some rid =>
    { s with store := applyUpdateById s.store rid (updateFields r ef now),
             updated := s.updated + 1 }
  | none =>
    { s with store := appendRow s.store (createFields r ef now),
             created := s.created + 1 }

/-- The record loop of `sync_to_feishu` over an input list, starting from a
given store with zeroed counters. -/
def sync_to_feishu (repos : List SRepo) (ef : List String) (now : Nat)
    (st : Store) : SyncState :=
  repos.foldl (syncStep ef now) { store := st, created := 0, updated := 0, failed := 0 }

theorem lookup_setField_ne (c k : String) (v : FieldValue)
    (fields : List (String × FieldValue)) (h : c ≠ k) :
    (setField fields k v).lookup c = fields.lookup c := by
  have hck : (c == k) = false := beq_eq_false_iff_ne.mpr h
  induction fields with
  | nil => simp [setField, List.lookup, hck]
  | cons p rest ih =>
    obtain ⟨k', v'⟩ := p
    by_cases hk : k' = k
    · subst hk
      simp [setField, List.lookup, hck]
    · by_cases hc : c = k'
      · subst hc
        simp [setField, hk, List.lookup]
      · have hck' : (c == k') = false := beq_eq_false_iff_ne.mpr hc
        simp [setField, hk, List.lookup, hck', ih]

theorem lookup_updateMerge_not_mem (c : String) (fs : List (String × FieldValue)) :
    ∀ fields : List (String × FieldValue), (∀ kv ∈ fs, kv.1 ≠ c) →
      (updateMerge fields fs).lookup c = fields.lookup c := by
  induction fs with
  | nil => intro fields _; rfl
  | cons kv fs ih =>
    intro fields h
    rw [updateMerge, List.foldl_cons]
    have hrest := ih (setField fields kv.1 kv.2)
      fun q hq => h q (List.mem_cons_of_mem _ hq)
    rw [updateMerge] at hrest
    rw [hrest]
    exact lookup_setField_ne c kv.1 kv.2 fields
      (Ne.symm (h kv (List.mem_cons_self _ _)))

theorem updateFields_keys (r : SRepo) (ef : List String) (now : Nat) :
    ∀ kv ∈ updateFields r ef now,
      (kv.1 = "Stars" ∨ kv.1 = "Forks" ∨ kv.1 = "更新时间") ∧ kv.1 ∈ ef := by
  intro kv hkv
  rw [updateFields] at hkv
  simp only [List.mem_append] at hkv
  rcases hkv with (h | h) | h
  · split at h
    · rename_i hin
      rcases List.mem_singleton.mp h with rfl
      exact ⟨Or.inl rfl, hin⟩
    · exact absurd h (List.not_mem_nil kv)
  · split at h
    · rename_i hin
      rcases List.mem_singleton.mp h with rfl
      exact ⟨Or.inr (Or.inl rfl), hin⟩
    · exact absurd h (List.not_mem_nil kv)
  · split at h
    · rename_i hin
      rcases List.mem_singleton.mp h with rfl
      exact ⟨Or.inr (Or.inr rfl), hin⟩
    · exact absurd h (List.not_mem_nil kv)

/-- Claim C4: on a found row, the update payload writes only the mutable
columns Stars, Forks and 更新时间 — and only those of them present in the
schema — and applying it leaves the value of every other column of the row
unchanged, whatever the source record now holds. -/
theorem claim4_update_only_mutable (r : SRepo) (ef : List String) (now : Nat) :
    (∀ kv ∈ updateFields r ef now,
      (kv.1 = "Stars" ∨ kv.1 = "Forks" ∨ kv.1 = "更新时间") ∧ kv.1 ∈ ef) ∧
    ∀ (row : StoreRow) (c : String),
      c ≠ "Stars" → c ≠ "Forks" → c ≠ "更新时间" →
      (applyUpdate row (updateFields r ef now)).fields.lookup c =
        row.fields.lookup c := by
  refine ⟨updateFields_keys r ef now, ?_⟩
  intro row c h1 h2 h3
  rw [applyUpdate]
  apply lookup_updateMerge_not_mem
  intro kv hkv
  rcases (updateFields_keys r ef now kv hkv).1 with h | h | h <;> rw [h]
  · exact Ne.symm h1
  · exact Ne.symm h2
  · exact Ne.symm h3

/-- A sync-side record with every descriptive field set, used as concrete
input for the reconciliation theorems. -/
def demoSRepo : SRepo :=
  { full_name := "a/x", name := "x", html_url := "https://e/x",
    description := some "new text", language := some "Python",
    owner_login := some "a", stargazers_count := 9, forks_count := 4,
    topics := ["t"] }

/-- A concrete existing store row for record a/x with an old description. -/
def demoRow : StoreRow :=
  { record_id := 0,
    fields := [("项目名称", FieldValue.text "a/x"),
      ("描述", FieldValue.text "old text"), ("Stars", FieldValue.num 1),
      ("Forks", FieldValue.num 1), ("更新时间", FieldValue.ts 5)] }

/-- Witness for C4: updating the a/x row from a record whose description
changed leaves the stored 描述 cell holding its old text. -/
theorem claim4_update_only_mutable_witness :
    (applyUpdate demoRow (updateFields demoSRepo allFieldNames 99)).fields.lookup "描述" =
      demoRow.fields.lookup "描述" ∧
    demoRow.fields.lookup "描述" = some (FieldValue.text "old text") :=
  ⟨(claim4_update_only_mutable demoSRepo allFieldNames 99).2 demoRow "描述"
      (by decide) (by decide) (by decide),
    by decide⟩

/-- Whether a record name is findable in the store by the reconciliation
search. -/
def findable (st : Store) (fn : String) : Bool :=
  (search_existing_record st fn).isSome

theorem updateFields_no_name (r : SRepo) (ef : List String) (now : Nat) :
    ∀ kv ∈ updateFields r ef now, kv.1 ≠ "项目名称" := by
  intro kv hkv
  rcases (updateFields_keys r ef now kv hkv).1 with h | h | h <;> rw [h] <;> decide

theorem search_applyUpdateById (st : Store) (rid : Nat)
    (fs : List (String × FieldValue)) (hfs : ∀ kv ∈ fs, kv.1 ≠ "项目名称")
    (fn : String) :
    search_existing_record (applyUpdateById st rid fs) fn =
      search_existing_record st fn := by
  rw [search_existing_record, search_existing_record, applyUpdateById]
  rw [List.find?_map]
  have hp1 : ∀ row : StoreRow,
      (if row.record_id = rid then applyUpdate row fs else row).fields.lookup
        "项目名称" = row.fields.lookup "项目名称" := by
    intro row
    by_cases hrow : row.record_id = rid
    · rw [if_pos hrow]
      exact lookup_updateMerge_not_mem _ _ _ hfs
    · rw [if_neg hrow]
  have hp : ((fun row => row.fields.lookup "项目名称" == some (FieldValue.text fn)) ∘
      fun row => if row.record_id = rid then applyUpdate row fs else row) =
      fun row => row.fields.lookup "项目名称" == some (FieldValue.text fn) := by
    funext row
    show ((if row.record_id = rid then applyUpdate row fs else row).fields.lookup
        "项目名称" == some (FieldValue.text fn)) =
      (row.fields.lookup "项目名称" == some (FieldValue.text fn))
    rw [hp1 row]
  rw [hp]
  cases hfind : st.rows.find?
      (fun row => row.fields.lookup "项目名称" == some (FieldValue.text fn)) with
  | none => simp
  | some row =>
    show some (StoreRow.record_id
        (if row.record_id = rid then applyUpdate row fs else row)) =
      some (StoreRow.record_id row)
    by_cases hrow : row.record_id = rid
    · rw [if_pos hrow]
      rfl
    · rw [if_neg hrow]

theorem search_appendRow_of_isSome (st : Store) (fs : List (String × FieldValue))
    (fn : String) (h : (search_existing_record st fn).isSome = true) :
    (search_existing_record (appendRow st fs) fn).isSome = true := by
  rw [search_existing_record] at h ⊢
  have hrows : (appendRow st fs).rows =
      st.rows ++ [{ record_id := st.next_id, fields := fs }] := rfl
  rw [hrows, List.find?_append]
  cases hfind : st.rows.find?
      (fun row => row.fields.lookup "项目名称" == some (FieldValue.text fn)) with
  | none => rw [hfind] at h; simp at h
  | some row => simp

theorem createFields_name (r : SRepo) (ef : List String) (now : Nat)
    (hef : "项目名称" ∈ ef) :
    (createFields r ef now).lookup "项目名称" =
      some (FieldValue.text r.full_name) := by
  rw [createFields, if_pos hef]
  simp [List.lookup]

theorem search_appendRow_created (st : Store) (r : SRepo) (ef : List String)
    (now : Nat) (hef : "项目名称" ∈ ef) :
    (search_existing_record (appendRow st (createFields r ef now))
        r.full_name).isSome = true := by
  rw [search_existing_record]
  have hrows : (appendRow st (createFields r ef now)).rows =
      st.rows ++ [{ record_id := st.next_id, fields := createFields r ef now }] := rfl
  rw [hrows, List.find?_append]
  cases hfind : st.rows.find?
      (fun row => row.fields.lookup "项目名称" == some (FieldValue.text r.full_name)) with
  | none =>
    have hpnew : ((({ record_id := st.next_id, fields := createFields r ef now } :
        StoreRow)).fields.lookup "项目名称" ==
          some (FieldValue.text r.full_name)) = true := by
      show ((createFields r ef now).lookup "项目名称" == _) = true
      rw [createFields_name r ef now hef]
      simp
    have hfindnew : List.find?
        (fun row : StoreRow =>
          row.fields.lookup "项目名称" == some (FieldValue.text r.full_name))
        [{ record_id := st.next_id, fields := createFields r ef now }] =
        some { record_id := st.next_id, fields := createFields r ef now } := by
      simp only [List.find?, hpnew]
    rw [Option.none_or, hfindnew]
    rfl
  | some row => simp

theorem findable_syncStep (ef : List String) (now : Nat) (s : SyncState)
    (r : SRepo) (fn : String) (h : findable s.store fn = true) :
    findable (syncStep ef now s r).store fn = true := by
  rw [syncStep]
  cases hsearch : search_existing_record s.store r.full_name with
  | some rid =>
    rw [findable, search_applyUpdateById _ _ _ (updateFields_no_name r ef now)]
    exact h
  | none =>
    rw [findable]
    exact search_appendRow_of_isSome _ _ _ h

theorem findable_syncStep_self (ef : List String) (now : Nat) (s : SyncState)
    (r : SRepo) (hef : "项目名称" ∈ ef) :
    findable (syncStep ef now s r).store r.full_name = true := by
  rw [syncStep]
  cases hsearch : search_existing_record s.store r.full_name with
  | some rid =>
    rw [findable, search_applyUpdateById _ _ _ (updateFields_no_name r ef now),
      hsearch]
    rfl
  | none =>
    rw [findable]
    exact search_appendRow_created _ _ _ _ hef

theorem findable_sync_fold (ef : List String) (now : Nat) :
    ∀ (repos : List SRepo) (s : SyncState) (fn : String),
      findable s.store fn = true →
      findable (repos.foldl (syncStep ef now) s).store fn = true := by
  intro repos
  induction repos with
  | nil => intro s fn h; exact h
  | cons r rs ih =>
    intro s fn h
    rw [List.foldl_cons]
    exact ih _ fn (findable_syncStep ef now s r fn h)

theorem findable_after_sync (ef : List String) (now : Nat)
    (hef : "项目名称" ∈ ef) :
    ∀ (repos : List SRepo) (s : SyncState) (r : SRepo), r ∈ repos →
      findable (repos.foldl (syncStep ef now) s).store r.full_name = true := by
  intro repos
  induction repos with
  | nil => intro s r h; exact absurd h (List.not_mem_nil r)
  | cons x xs ih =>
    intro s r h
    rw [List.foldl_cons]
    rcases List.mem_cons.mp h with rfl | h
    · exact findable_sync_fold ef now xs _ r.full_name
        (findable_syncStep_self ef now s r hef)
    · exact ih _ r h

theorem sync_all_found (ef : List String) (now : Nat) :
    ∀ (repos : List SRepo) (s : SyncState),
      (∀ r ∈ repos, findable s.store r.full_name = true) →
      (repos.foldl (syncStep ef now) s).created = s.created ∧
      (repos.foldl (syncStep ef now) s).updated = s.updated + repos.length ∧
      (repos.foldl (syncStep ef now) s).failed = s.failed ∧
      (repos.foldl (syncStep ef now) s).store.rows.length =
        s.store.rows.length := by
  intro repos
  induction repos with
  | nil => intro s _; exact ⟨rfl, rfl, rfl, rfl⟩
  | cons r rs ih =>
    intro s h
    have hr : findable s.store r.full_name = true := h r (List.mem_cons_self r rs)
    rw [findable] at hr
    rw [Option.isSome_iff_exists] at hr
    obtain ⟨rid, hrid⟩ := hr
    rw [List.foldl_cons]
    have hstep : syncStep ef now s r =
        { s with store := applyUpdateById s.store rid (updateFields r ef now),
                 updated := s.updated + 1 } := by
      rw [syncStep, hrid]
    rw [hstep]
    have hrest : ∀ q ∈ rs, findable
        (applyUpdateById s.store rid (updateFields r ef now)) q.full_name = true := by
      intro q hq
      rw [findable, search_applyUpdateById _ _ _ (updateFields_no_name r ef now)]
      exact h q (List.mem_cons_of_mem r hq)
    obtain ⟨h1, h2, h3, h4⟩ := ih
      { s with store := applyUpdateById s.store rid (updateFields r ef now),
               updated := s.updated + 1 }
      (fun q hq => hrest q hq)
    refine ⟨h1, ?_, h3, ?_⟩
    · rw [h2]
      simp [List.length_cons]
      omega
    · rw [h4]
      rw [applyUpdateById]
      simp [List.length_map]

theorem updateFields_lookup_stars (r : SRepo) (ef : List String) (now : Nat) :
    (updateFields r ef now).lookup "Stars" =
      if "Stars" ∈ ef then some (FieldValue.num r.stargazers_count) else none := by
  rw [updateFields]
  by_cases hs : "Stars" ∈ ef <;> by_cases hf : "Forks" ∈ ef <;>
    by_cases hu : "更新时间" ∈ ef <;>
    simp [hs, hf, hu, List.lookup]

theorem updateFields_lookup_forks (r : SRepo) (ef : List String) (now : Nat) :
    (updateFields r ef now).lookup "Forks" =
      if "Forks" ∈ ef then some (FieldValue.num r.forks_count) else none := by
  rw [updateFields]
  by_cases hs : "Stars" ∈ ef <;> by_cases hf : "Forks" ∈ ef <;>
    by_cases hu : "更新时间" ∈ ef <;>
    simp [hs, hf, hu, List.lookup]

/-- Counterexample to C3 as frozen: the claim asserts the two runs report the
same updated count, but a first run against an empty store creates the record
(reporting updated = 0) while the second run finds it (reporting
updated = 1). -/
theorem claim3_counterexample :
    (sync_to_feishu [demoSRepo] allFieldNames 0
        { rows := [], next_id := 0 }).updated = 0 ∧
    (sync_to_feishu [demoSRepo] allFieldNames 7
        (sync_to_feishu [demoSRepo] allFieldNames 0
          { rows := [], next_id := 0 }).store).updated = 1 := by
  exact ⟨by decide, by decide⟩

/-- Claim C3 (amended): when the schema has the 项目名称 column, re-running
the sync on an unchanged input against the store produced by the first run
creates zero additional rows — every record resolves to found → update, so the
second run reports updated = number of input records (not necessarily the
first run's updated count, which omits the records the first run created) and
failed = 0, the row count is unchanged, and the Stars and Forks cells are
written with values identical to the first run's payload (更新时间 tracks the
clock instead). -/
theorem claim3_second_run_idempotent (repos : List SRepo) (ef : List String)
    (now1 now2 : Nat) (st0 : Store) (hef : "项目名称" ∈ ef) :
    (sync_to_feishu repos ef now2
        (sync_to_feishu repos ef now1 st0).store).created = 0 ∧
    (sync_to_feishu repos ef now2
        (sync_to_feishu repos ef now1 st0).store).updated = repos.length ∧
    (sync_to_feishu repos ef now2
        (sync_to_feishu repos ef now1 st0).store).failed = 0 ∧
    (sync_to_feishu repos ef now2
        (sync_to_feishu repos ef now1 st0).store).store.rows.length =
      (sync_to_feishu repos ef now1 st0).store.rows.length ∧
    ∀ r ∈ repos,
      (updateFields r ef now2).lookup "Stars" =
        (updateFields r ef now1).lookup "Stars" ∧
      (updateFields r ef now2).lookup "Forks" =
        (updateFields r ef now1).lookup "Forks" := by
  have hfound : ∀ r ∈ repos,
      findable (sync_to_feishu repos ef now1 st0).store r.full_name = true := by
    intro r hr
    exact findable_after_sync ef now1 hef repos _ r hr
  obtain ⟨h1, h2, h3, h4⟩ := sync_all_found ef now2 repos
    { store := (sync_to_feishu repos ef now1 st0).store,
      created := 0, updated := 0, failed := 0 }
    (fun r hr => hfound r hr)
  refine ⟨h1, ?_, h3, h4, ?_⟩
  · rw [show (sync_to_feishu repos ef now2
        (sync_to_feishu repos ef now1 st0).store).updated =
        (repos.foldl (syncStep ef now2)
          { store := (sync_to_feishu repos ef now1 st0).store,
            created := 0, updated := 0, failed := 0 }).updated from rfl, h2]
    exact Nat.zero_add repos.length
  · intro r _
    rw [updateFields_lookup_stars, updateFields_lookup_stars,
      updateFields_lookup_forks, updateFields_lookup_forks]
    exact ⟨rfl, rfl⟩

/-- Witness for C3 (amended) on a concrete record against an empty store: the
second run creates nothing and updates the single record. -/
theorem claim3_second_run_idempotent_witness :
    (sync_to_feishu [demoSRepo] allFieldNames 7
        (sync_to_feishu [demoSRepo] allFieldNames 0
          { rows := [], next_id := 0 }).store).created = 0 ∧
    (sync_to_feishu [demoSRepo] allFieldNames 7
        (sync_to_feishu [demoSRepo] allFieldNames 0
          { rows := [], next_id := 0 }).store).updated = 1 :=
  ⟨(claim3_second_run_idempotent [demoSRepo] allFieldNames 0 7
      { rows := [], next_id := 0 } (by decide)).1,
   (claim3_second_run_idempotent [demoSRepo] allFieldNames 0 7
      { rows := [], next_id := 0 } (by decide)).2.1⟩

theorem descValue_eq (r : SRepo) :
    descValue r = pyStrTake (r.description.getD "") 2000 := by
  cases hdesc : r.description with
  | none =>
    simp only [descValue, hdesc]
    rfl
  | some d =>
    simp only [descValue, hdesc]
    by_cases hd : d = ""
    · rw [if_pos hd, hd]
      rfl
    · rw [if_neg hd]
      rfl

/-- Counterexample to C5 as frozen: the claim asserts creation populates every
column present in the schema, but the 备注 column — present in the schema —
is absent from the fields dictionary `create_record` builds (as are the two
flag columns), even for a record with every source field set. -/
theorem claim5_counterexample :
    "备注" ∈ allFieldNames ∧
    (createFields demoSRepo allFieldNames 0).lookup "备注" = none := by
  exact ⟨by decide, by decide⟩

/-- Claim C5 (amended): when no existing row is found and the schema holds all
required columns, the created row populates the nine content columns from the
record — name; description truncated to 2000 characters (empty when missing);
stars; forks; language copied as stored (null when the record's language is
null, since normalized records always carry the key and `.get`'s Unknown
placeholder applies only to a missing key); link as url plus name label;
author (null when the login is null); tags joined from the first 10 topics but
only when the record has at least one topic; and the sync-time timestamp — and
leaves the two flag columns and the note column unpopulated. -/
theorem claim5_create_populates_content_columns (r : SRepo) (now : Nat) :
    ((createFields r allFieldNames now).lookup "项目名称" =
        some (FieldValue.text r.full_name)) ∧
    ((createFields r allFieldNames now).lookup "描述" =
        some (FieldValue.text (pyStrTake (r.description.getD "") 2000))) ∧
    ((createFields r allFieldNames now).lookup "Stars" =
        some (FieldValue.num r.stargazers_count)) ∧
    ((createFields r allFieldNames now).lookup "Forks" =
        some (FieldValue.num r.forks_count)) ∧
    ((createFields r allFieldNames now).lookup "语言" = some (langValue r)) ∧
    ((createFields r allFieldNames now).lookup "链接" =
        some (FieldValue.linkv r.html_url r.name)) ∧
    ((createFields r allFieldNames now).lookup "作者" = some (authorValue r)) ∧
    ((createFields r allFieldNames now).lookup "标签" =
        (if r.topics = [] then none
          else some (FieldValue.text (String.intercalate ", " (r.topics.take 10))))) ∧
    ((createFields r allFieldNames now).lookup "更新时间" =
        some (FieldValue.ts now)) ∧
    ((createFields r allFieldNames now).lookup "是否已读" = none) ∧
    ((createFields r allFieldNames now).lookup "是否关注" = none) ∧
    ((createFields r allFieldNames now).lookup "备注" = none) := by
  have m1 : "项目名称" ∈ allFieldNames := by decide
  have m2 : "描述" ∈ allFieldNames := by decide
  have m3 : "Stars" ∈ allFieldNames := by decide
  have m4 : "Forks" ∈ allFieldNames := by decide
  have m5 : "语言" ∈ allFieldNames := by decide
  have m6 : "链接" ∈ allFieldNames := by decide
  have m7 : "作者" ∈ allFieldNames := by decide
  have m8 : "标签" ∈ allFieldNames := by decide
  have m9 : "更新时间" ∈ allFieldNames := by decide
  by_cases ht : r.topics = []
  · have hcf : createFields r allFieldNames now =
        [("项目名称", FieldValue.text r.full_name),
         ("描述", FieldValue.text (descValue r)),
         ("Stars", FieldValue.num r.stargazers_count),
         ("Forks", FieldValue.num r.forks_count),
         ("语言", langValue r),
         ("链接", FieldValue.linkv r.html_url r.name),
         ("作者", authorValue r),
         ("更新时间", FieldValue.ts now)] := by
      rw [createFields, if_pos m1, if_pos m2, if_pos m3, if_pos m4, if_pos m5,
        if_pos m6, if_pos m7, if_neg (fun h => h.2 ht), if_pos m9]
      rfl
    rw [hcf]
    simp [List.lookup, descValue_eq, ht]
  · have hcf : createFields r allFieldNames now =
        [("项目名称", FieldValue.text r.full_name),
         ("描述", FieldValue.text (descValue r)),
         ("Stars", FieldValue.num r.stargazers_count),
         ("Forks", FieldValue.num r.forks_count),
         ("语言", langValue r),
         ("链接", FieldValue.linkv r.html_url r.name),
         ("作者", authorValue r),
         ("标签", FieldValue.text (String.intercalate ", " (r.topics.take 10))),
         ("更新时间", FieldValue.ts now)] := by
      rw [createFields, if_pos m1, if_pos m2, if_pos m3, if_pos m4, if_pos m5,
        if_pos m6, if_pos m7, if_pos ⟨m8, ht⟩, if_pos m9]
      rfl
    rw [hcf]
    simp [List.lookup, descValue_eq, ht]
